import Mathlib

/-!
Verification of the GetADPSO directory-enumeration tool (`GetADPSO.py`).

Strings are modelled as `List Char`.  Python's `str.split(sep)` for a
one-character separator and `sep.join` are modelled by `splitOnChar` and
`joinWith`; both keep empty pieces, exactly as Python does.
-/

/-- Model of Python `s.split(c)` for a single-character separator `c`:
splits at every occurrence of `c`, keeping empty pieces, and returns
`[s]` (one piece) when `c` does not occur.  `"".split(c) = [""]`. -/
def splitOnChar (c : Char) : List Char → List (List Char)
  | [] => [[]]
  | x :: xs =>
    if x = c then [] :: splitOnChar c xs
    else
      match splitOnChar c xs with
      | [] => [[x]]
      | p :: ps => (x :: p) :: ps

/-- Model of Python `sep.join(pieces)`. -/
def joinWith (sep : List Char) : List (List Char) → List Char
  | [] => []
  | [p] => p
  | p :: q :: ps => p ++ sep ++ joinWith sep (q :: ps)

/-- Decimal digit character, as produced by Python `str` on an `int`. -/
def digitChar : Nat → Char
  | 0 => '0' | 1 => '1' | 2 => '2' | 3 => '3' | 4 => '4'
  | 5 => '5' | 6 => '6' | 7 => '7' | 8 => '8' | _ => '9'

/-- Fueled digit accumulator for `natStr`; the fuel (128) far exceeds the
number of decimal digits of any value occurring in the program. -/
def natStrAux : Nat → Nat → List Char → List Char
  | 0, _, acc => acc
  | fuel + 1, n, acc =>
    if n < 10 then digitChar n :: acc
    else natStrAux fuel (n / 10) (digitChar (n % 10) :: acc)

/-- Model of Python `str(n)` for a nonnegative integer `n`. -/
def natStr (n : Nat) : List Char := natStrAux 128 n []

/-- `base_creator(domain)` from GetADPSO.py line 7-8:
`','.join([f"DC={part}" for part in domain.split('.')])`. -/
def base_creator (domain : List Char) : List Char :=
  joinWith [','] ((splitOnChar '.' domain).map (fun part => ['D', 'C', '='] ++ part))

/-- The search base built inline at GetADPSO.py line 43 (and 96):
`'DC=' + ',DC='.join(domain.split('.'))`. -/
def userSearchBase (domain : List Char) : List Char :=
  ['D', 'C', '='] ++ joinWith [',', 'D', 'C', '='] (splitOnChar '.' domain)

/-- The recovery map stated by the round-trip property: split the produced
base on its comma-separated `DC=` components, strip the three-character
`DC=` tag from each, and rejoin the labels with `.`. -/
def recoverDomain (b : List Char) : List Char :=
  joinWith ['.'] ((splitOnChar ',' b).map (fun p => p.drop 3))

/-!
Exact model of `clock(nano)` (GetADPSO.py lines 10-13):

    sec = int(abs(nano / 10000000))

Python `/` on integers is IEEE-754 double division: the exact rational
`nano / 10^7` is rounded to the nearest double (ties to even) and `int`
then truncates toward zero.  Rounding to nearest is symmetric in sign and
`abs` on a double is exact, so `abs(nano / 10^7)` equals the correctly
rounded double of `|nano| / 10^7`; the model below computes that value
with exact integer arithmetic.  It is faithful for every signed 64-bit
input (indeed for any input whose quotient stays in the normal finite
double range; the recursion fuel 128 covers all magnitudes below 2^128).
-/

/-- Round the rational `n / d` to the nearest integer, ties to even. -/
def rhe (n d : Nat) : Nat :=
  let q := n / d
  let r := n % d
  if 2 * r < d then q
  else if d < 2 * r then q + 1
  else if q % 2 = 0 then q else q + 1

/-- Fueled floor of the base-2 logarithm. -/
def floorLog2Aux : Nat → Nat → Nat
  | 0, _ => 0
  | fuel + 1, n => if 2 ≤ n then floorLog2Aux fuel (n / 2) + 1 else 0

/-- `⌊log₂ n⌋` for `1 ≤ n < 2^128`. -/
def floorLog2 (n : Nat) : Nat := floorLog2Aux 128 n

/-- `⌈log₂ n⌉` for `1 ≤ n < 2^128`. -/
def ceilLog2 (n : Nat) : Nat := if n ≤ 1 then 0 else floorLog2 (n - 1) + 1

/-- The binade of the positive rational `n / d`: the unique `e` with
`2^e ≤ n / d < 2^(e+1)` (assuming `1 ≤ n` and `1 ≤ d`). -/
def qlog2floor (n d : Nat) : Int :=
  if d ≤ n then Int.ofNat (floorLog2 (n / d))
  else -Int.ofNat (ceilLog2 ((d + n - 1) / n))

/-- `int(abs(nano / 10000000))` of GetADPSO.py line 12: the exact rational
`|t| / 10^7` is rounded to the nearest double (53-bit significand, ties to
even) and the result truncated to an integer. -/
def pySeconds (t : Int) : Nat :=
  let n := t.natAbs
  if n = 0 then 0
  else
    let e := qlog2floor n 10000000
    if e ≤ 52 then
      let shift := (52 - e).toNat
      rhe (n * 2 ^ shift) 10000000 / 2 ^ shift
    else
      let shift := (e - 52).toNat
      rhe n (10000000 * 2 ^ shift) * 2 ^ shift

/-- `clock(nano)` from GetADPSO.py lines 10-13.  `relativedelta(seconds=sec)`
normalizes `sec` into days / hours / minutes / seconds with a flat 24-hour
day and 60-minute hour, and the fixed format string renders the four
components. -/
def clock (t : Int) : List Char :=
  let sec := pySeconds t
  natStr (sec / 86400) ++ " days ".data ++ natStr (sec % 86400 / 3600) ++ " hours ".data
    ++ natStr (sec % 3600 / 60) ++ " minutes ".data ++ natStr (sec % 60) ++ " seconds".data

/-- Reference interval decoder, written from the specification's words:
take the absolute value, divide by 10,000,000 with integer truncation
(sub-second remainder discarded, not rounded), decompose with a flat
24-hour day and 60-minute hour, and render the fixed format. -/
def decodeIntervalRef (t : Int) : List Char :=
  let sec := t.natAbs / 10000000
  natStr (sec / 86400) ++ " days ".data ++ natStr (sec % 86400 / 3600) ++ " hours ".data
    ++ natStr (sec % 3600 / 60) ++ " minutes ".data ++ natStr (sec % 60) ++ " seconds".data

/-!
PSO-name extraction and the Users projection (GetADPSO.py lines 55-64;
`get_group_pso` at lines 108-117 uses the identical extraction).
-/

/-- `value.split(',')[0].split('=')[1]` (GetADPSO.py line 59 / 112).
`split` always returns at least one piece, so the `[0]` index is total;
the `[1]` index raises `IndexError` when the first comma-delimited
segment contains no `=`, which the `Option` result models as `none`. -/
def pso_name (v : List Char) : Option (List Char) :=
  (splitOnChar '=' ((splitOnChar ',' v).headI)).get? 1

/-- A directory entry as consumed by `get_user_attributes`: each requested
attribute is either absent (`none`) or present with its string value. -/
structure Entry where
  sAMAccountName : Option (List Char)
  msDS_ResultantPSO : Option (List Char)
deriving DecidableEq

/-- The filter on line 56: `'msDS-ResultantPSO' in entry and
entry['msDS-ResultantPSO']` — the attribute is present and non-empty. -/
def hasPSO (e : Entry) : Bool :=
  match e.msDS_ResultantPSO with
  | none => false
  | some v => !v.isEmpty

/-- The string the extraction runs on: `str(entry['msDS-ResultantPSO'])`. -/
def psoValue (e : Entry) : List Char := e.msDS_ResultantPSO.getD []

/-- The `'N/A'` fallback used when `sAMAccountName` is absent (line 57). -/
def naStr : List Char := ['N', '/', 'A']

/-- The result-accumulation loop of lines 51-64: one `(sam_account_name,
pso_name)` row per entry passing the `hasPSO` filter, in entry order.
An `IndexError` raised by the extraction aborts the whole loop before
anything is printed; `none` models that exception. -/
def projectUsers : List Entry → Option (List (List Char × List Char))
  | [] => some []
  | e :: es =>
    if hasPSO e then
      match pso_name (psoValue e) with
      | none => none
      | some nm =>
        match projectUsers es with
        | none => none
        | some rest => some ((e.sAMAccountName.getD naStr, nm) :: rest)
    else projectUsers es

/-!
Session establishment (`create_connection`, lines 15-26) and the
per-family runs.  The behaviour of the ldap3 library is abstracted by an
oracle assigning each bind attempt an outcome: a successful bind, an
`LDAPSocketOpenError`, or an `LDAPBindError`.  Every run records its
externally visible directory actions as a list of events.
-/

/-- Outcome of one bind attempt: success, `LDAPSocketOpenError`
(transport), or `LDAPBindError` (credentials rejected). -/
inductive BindOutcome
  | success
  | socketFail
  | bindFail
deriving DecidableEq

/-- The arguments of one `create_connection` call: server address,
principal, password, and the `use_ssl` flag. -/
structure BindAttempt where
  address : List Char
  user : List Char
  password : List Char
  useSSL : Bool
deriving DecidableEq

/-- Directory actions a run performs, in order. -/
inductive Event
  | bindTry (a : BindAttempt) (outcome : BindOutcome)
  | search (base : List Char) (filt : List Char)
  | unbind
deriving DecidableEq

/-- Is the event a bind attempt? -/
def isBindEvent : Event → Bool
  | Event.bindTry _ _ => true
  | _ => false

/-- `create_connection` (lines 15-26): attempt the bind described by `a`;
on success return the connection, on either caught exception print a
diagnostic and return `None`.  The (address, user, password, use_ssl)
arguments are bundled as a `BindAttempt`. -/
def create_connection (oracle : BindAttempt → BindOutcome) (a : BindAttempt) :
    Option BindAttempt × List Event :=
  match oracle a with
  | BindOutcome.success => (some a, [Event.bindTry a BindOutcome.success])
  | o => (none, [Event.bindTry a o])

/-- The plaintext attempt of lines 29-34: principal `domain\username`,
address `{dc_ip or domain}:389`, `use_ssl=False`. -/
def plainAttempt (username password domain : List Char) (dc_ip : Option (List Char)) :
    BindAttempt :=
  { address := (dc_ip.getD domain) ++ ":389".data
    user := domain ++ '\\' :: username
    password := password
    useSSL := false }

/-- The encrypted attempt of lines 31 and 37: same principal and
credentials, address `{dc_ip or domain}:636`, `use_ssl=True`. -/
def sslAttempt (username password domain : List Char) (dc_ip : Option (List Char)) :
    BindAttempt :=
  { address := (dc_ip.getD domain) ++ ":636".data
    user := domain ++ '\\' :: username
    password := password
    useSSL := true }

/-- Result of one query-family run. -/
inductive RunOutcome
  | noSession
  | raised
  | completed (rows : List (List Char × List Char))
deriving DecidableEq

/-- Lines 43-79 of `get_user_attributes`, after a successful bind: search
the domain base for users, project the rows, print the table, unbind.
An extraction `IndexError` propagates before `conn.unbind()` is reached. -/
def usersAfterBind (domain : List Char) (entries : List Entry) (evs : List Event) :
    RunOutcome × List Event :=
  let evs := evs ++ [Event.search (userSearchBase domain) "(objectClass=user)".data]
  match projectUsers entries with
  | none => (RunOutcome.raised, evs)
  | some rows => (RunOutcome.completed rows, evs ++ [Event.unbind])

/-- `get_user_attributes` (lines 28-79): plaintext bind, encrypted
fallback, early return with no search when both fail, then the search /
projection / unbind sequence.  `entries` stands for what `conn.entries`
holds after the search. -/
def run_get_user_attributes (oracle : BindAttempt → BindOutcome)
    (username password domain : List Char) (dc_ip : Option (List Char))
    (entries : List Entry) : RunOutcome × List Event :=
  match create_connection oracle (plainAttempt username password domain dc_ip) with
  | (some _, ev1) => usersAfterBind domain entries ev1
  | (none, ev1) =>
    match create_connection oracle (sslAttempt username password domain dc_ip) with
    | (some _, ev2) => usersAfterBind domain entries (ev1 ++ ev2)
    | (none, ev2) => (RunOutcome.noSession, ev1 ++ ev2)

/-!
The PSO-detail projection (`get_pso_details`, lines 134-189).  ldap3
raises when an entry attribute that the server did not return is accessed
without a presence check; `getAttr` models that access.  ANSI color
escapes are presentation-only and are omitted from the rendered lines.
-/

/-- One `msDS-PasswordSettings` entry.  `none` means the attribute is
absent from the entry.  The four FILETIME interval attributes are kept as
tick counts (the code applies `int(...)` then `clock`). -/
structure DetailEntry where
  name : Option (List Char)
  description : Option (List Char)
  minimumPasswordLength : Option (List Char)
  passwordHistoryLength : Option (List Char)
  lockoutThreshold : Option (List Char)
  lockoutObservationWindow : Option Int
  lockoutDuration : Option Int
  passwordComplexityEnabled : Option (List Char)
  minimumPasswordAge : Option Int
  maximumPasswordAge : Option Int
  reversibleEncryption : Option (List Char)
  passwordSettingsPrecedence : Option (List Char)
  msDS_PSOAppliesTo : Option (List (List Char))
deriving DecidableEq

/-- `entry['attr'].value` without a presence check: raises (modelled as
`Except.error ()`) when the attribute is absent. -/
def getAttr {α : Type} : Option α → Except Unit α
  | none => Except.error ()
  | some v => Except.ok v

/-- The `clock(int(...)) if 'attr' in entry else 'N/A'` pattern used for
the four interval attributes (lines 175, 176, 178, 179). -/
def clockOrNA : Option Int → List Char
  | some t => clock t
  | none => "N/A".data

/-- The block of lines printed for one PSO entry (lines 169-185), given
the values of the seven attributes that are accessed without a presence
check.  `description` and `msds-psoappliesto` lines are emitted only when
present; the four interval attributes fall back to `N/A`; the trailing
empty line is `print("")`. -/
def psoLines (e : DetailEntry) (nameV minLen histLen thresh cplx rev prec : List Char) :
    List (List Char) :=
  ("Policy Name: ".data ++ nameV)
  :: ((match e.description with
      | some dsc => [("Description: ".data ++ dsc)]
      | none => [])
  ++ ("Minimum Password Length: ".data ++ minLen)
  :: ("Password History Length: ".data ++ histLen)
  :: ("Lockout Threshold: ".data ++ thresh)
  :: ("Observation Window: ".data ++ clockOrNA e.lockoutObservationWindow)
  :: ("Lockout Duration: ".data ++ clockOrNA e.lockoutDuration)
  :: ("Complexity Enabled: ".data ++ cplx)
  :: ("Minimum Password Age: ".data ++ clockOrNA e.minimumPasswordAge)
  :: ("Maximum Password Age: ".data ++ clockOrNA e.maximumPasswordAge)
  :: ("Reversible Encryption: ".data ++ rev)
  :: ("Precedence: ".data ++ prec)
  :: ((match e.msDS_PSOAppliesTo with
      | some dns => dns.map (fun dn => "Policy Applies to: ".data ++ dn)
      | none => [])
  ++ [[]]))

/-- Rendering one entry (loop body, lines 169-185): the seven attributes
accessed without a presence check (`name`, `msds-minimumpasswordlength`,
`msds-passwordhistorylength`, `msds-lockoutthreshold`,
`msds-passwordcomplexityenabled`,
`msds-passwordreversibleencryptionenabled`,
`msds-passwordsettingsprecedence`) must all be present, else the access
raises; the remaining attributes are presence-checked in the source. -/
def renderPSO (e : DetailEntry) : Except Unit (List (List Char)) := do
  let nameV ← getAttr e.name
  let minLen ← getAttr e.minimumPasswordLength
  let histLen ← getAttr e.passwordHistoryLength
  let thresh ← getAttr e.lockoutThreshold
  let cplx ← getAttr e.passwordComplexityEnabled
  let rev ← getAttr e.reversibleEncryption
  let prec ← getAttr e.passwordSettingsPrecedence
  Except.ok (psoLines e nameV minLen histLen thresh cplx rev prec)

/-- The `for entry in conn.entries` loop of line 168: an exception on any
entry aborts the whole loop. -/
def renderAll : List DetailEntry → Except Unit (List (List (List Char)))
  | [] => Except.ok []
  | e :: es =>
    match renderPSO e, renderAll es with
    | Except.ok ls, Except.ok rest => Except.ok (ls :: rest)
    | _, _ => Except.error ()

/-- Result of a `get_pso_details` run. -/
inductive DetailOutcome
  | noSession
  | raised
  | privilegeWarning
  | completed (blocks : List (List (List Char)))
deriving DecidableEq

/-- Lines 149-189 of `get_pso_details` after a successful bind: search the
password-settings container, render every entry (or print the privilege
warning when the result set is empty), then unbind.  An exception raised
while rendering propagates before `conn.unbind()` is reached. -/
def detailsAfterBind (domain : List Char) (entries : List DetailEntry)
    (evs : List Event) : DetailOutcome × List Event :=
  let base := "CN=Password Settings Container,CN=System,".data ++ base_creator domain
  let evs := evs ++ [Event.search base "(objectclass=msDS-PasswordSettings)".data]
  if entries.isEmpty then (DetailOutcome.privilegeWarning, evs ++ [Event.unbind])
  else
    match renderAll entries with
    | Except.error _ => (DetailOutcome.raised, evs)
    | Except.ok blocks => (DetailOutcome.completed blocks, evs ++ [Event.unbind])

/-- `get_pso_details` (lines 134-189): same bind fallback as the other
families, then the detail search and rendering. -/
def run_get_pso_details (oracle : BindAttempt → BindOutcome)
    (username password domain : List Char) (dc_ip : Option (List Char))
    (entries : List DetailEntry) : DetailOutcome × List Event :=
  match create_connection oracle (plainAttempt username password domain dc_ip) with
  | (some _, ev1) => detailsAfterBind domain entries ev1
  | (none, ev1) =>
    match create_connection oracle (sslAttempt username password domain dc_ip) with
    | (some _, ev2) => detailsAfterBind domain entries (ev1 ++ ev2)
    | (none, ev2) => (DetailOutcome.noSession, ev1 ++ ev2)

/-!
The orchestrator (`__main__`, lines 191-212): `get_group_pso` and
`get_user_attributes` are called with no exception guard; only the final
`get_pso_details` call sits inside `try/except`.  Each called family is
abstracted by whether it returns normally (which covers the internally
handled connectivity and bind failures) or raises an exception.
-/

/-- Whether a query-family call returns normally or raises. -/
inductive FamBehavior
  | returns
  | raises
deriving DecidableEq

/-- The three query families, in call order. -/
inductive Fam
  | groups
  | users
  | details
deriving DecidableEq

/-- How the whole process ends: normally, normally with the caught
detail-step error reported (line 212), or crashed by an uncaught
exception. -/
inductive TopOutcome
  | completed
  | completedWithReport
  | crashed
deriving DecidableEq

/-- Lines 202-212: call the group family, then the user family, then the
detail family inside `try/except`.  Returns the families actually
attempted (in order) and how the process ends. -/
def mainRun (g u d : FamBehavior) : List Fam × TopOutcome :=
  match g with
  | FamBehavior.raises => ([Fam.groups], TopOutcome.crashed)
  | FamBehavior.returns =>
    match u with
    | FamBehavior.raises => ([Fam.groups, Fam.users], TopOutcome.crashed)
    | FamBehavior.returns =>
      match d with
      | FamBehavior.raises =>
        ([Fam.groups, Fam.users, Fam.details], TopOutcome.completedWithReport)
      | FamBehavior.returns =>
        ([Fam.groups, Fam.users, Fam.details], TopOutcome.completed)

/-! Helper lemmas about `splitOnChar` and `joinWith`. -/

theorem splitOnChar_ne_nil (c : Char) (l : List Char) : splitOnChar c l ≠ [] := by
  cases l with
  | nil => simp [splitOnChar]
  | cons x xs =>
    simp only [splitOnChar]
    split
    · simp
    · split <;> simp

theorem splitOnChar_of_not_mem {c : Char} {l : List Char} (h : c ∉ l) :
    splitOnChar c l = [l] := by
  induction l with
  | nil => rfl
  | cons x xs ih =>
    have hx : ¬x = c := fun hh => h (hh ▸ List.mem_cons_self x xs)
    have hxs : c ∉ xs := fun hh => h (List.mem_cons_of_mem _ hh)
    simp [splitOnChar, hx, ih hxs]

theorem splitOnChar_append {c : Char} {a : List Char} (b : List Char) (h : c ∉ a) :
    splitOnChar c (a ++ c :: b) = a :: splitOnChar c b := by
  induction a with
  | nil => simp [splitOnChar]
  | cons x xs ih =>
    have hx : ¬x = c := fun hh => h (hh ▸ List.mem_cons_self x xs)
    have hxs : c ∉ xs := fun hh => h (List.mem_cons_of_mem _ hh)
    simp only [List.cons_append, splitOnChar, if_neg hx, List.append_eq, ih hxs]

theorem joinWith_splitOnChar (c : Char) (l : List Char) :
    joinWith [c] (splitOnChar c l) = l := by
  induction l with
  | nil => rfl
  | cons x xs ih =>
    by_cases hx : x = c
    · subst hx
      simp only [splitOnChar, if_pos rfl]
      rcases hr : splitOnChar x xs with _ | ⟨p, ps⟩
      · exact absurd hr (splitOnChar_ne_nil x xs)
      · rw [hr] at ih
        simpa [joinWith] using ih
    · simp only [splitOnChar, if_neg hx]
      rcases hr : splitOnChar c xs with _ | ⟨p, ps⟩
      · exact absurd hr (splitOnChar_ne_nil c xs)
      · rw [hr] at ih
        cases ps with
        | nil => simpa [joinWith] using congrArg (x :: ·) ih
        | cons q qs =>
          simp only [joinWith, List.cons_append] at ih ⊢
          rw [← ih]

theorem not_mem_of_mem_splitOnChar {c x : Char} {l : List Char} (h : x ∉ l) :
    ∀ p ∈ splitOnChar c l, x ∉ p := by
  induction l with
  | nil =>
    intro p hp
    simp [splitOnChar] at hp
    simp [hp]
  | cons y ys ih =>
    have hy : ¬x = y := fun hh => h (hh ▸ List.mem_cons_self y ys)
    have hys : x ∉ ys := fun hh => h (List.mem_cons_of_mem _ hh)
    intro p hp
    simp only [splitOnChar] at hp
    split at hp
    · rcases List.mem_cons.mp hp with rfl | hp
      · simp
      · exact ih hys p hp
    · rcases hr : splitOnChar c ys with _ | ⟨q, qs⟩
      · exact absurd hr (splitOnChar_ne_nil c ys)
      · rw [hr] at hp
        rcases List.mem_cons.mp hp with rfl | hp
        · intro hm
          rcases List.mem_cons.mp hm with rfl | hm
          · exact hy rfl
          · exact ih hys q (hr ▸ List.mem_cons_self q qs) hm
        · exact ih hys p (hr ▸ List.mem_cons_of_mem q hp)

theorem splitOnChar_joinWith {c : Char} :
    ∀ L : List (List Char), L ≠ [] → (∀ p ∈ L, c ∉ p) →
      splitOnChar c (joinWith [c] L) = L
  | [], h, _ => absurd rfl h
  | [p], _, hc => by
    simp only [joinWith]
    exact splitOnChar_of_not_mem (hc p (List.mem_cons_self p []))
  | p :: q :: ps, _, hc => by
    have hp : c ∉ p := hc p (List.mem_cons_self p (q :: ps))
    have hrest : ∀ r ∈ q :: ps, c ∉ r := fun r hr => hc r (List.mem_cons_of_mem p hr)
    have ih := splitOnChar_joinWith (q :: ps) (by simp) hrest
    calc splitOnChar c (joinWith [c] (p :: q :: ps))
        = splitOnChar c (p ++ c :: joinWith [c] (q :: ps)) := by
          simp [joinWith, List.append_assoc]
      _ = p :: splitOnChar c (joinWith [c] (q :: ps)) := splitOnChar_append _ hp
      _ = p :: q :: ps := by rw [ih]

theorem joinWith_map_append (c : Char) (pre : List Char) :
    ∀ L : List (List Char), L ≠ [] →
      joinWith [c] (L.map (fun p => pre ++ p)) = pre ++ joinWith (c :: pre) L
  | [], h => absurd rfl h
  | [p], _ => rfl
  | p :: q :: ps, _ => by
    have ih := joinWith_map_append c pre (q :: ps) (by simp)
    simp only [List.map_cons, joinWith] at ih ⊢
    rw [ih]
    simp [List.append_assoc]

theorem two_le_splitOnChar_length {c : Char} {l : List Char} (h : c ∈ l) :
    2 ≤ (splitOnChar c l).length := by
  induction l with
  | nil => simp at h
  | cons x xs ih =>
    simp only [splitOnChar]
    by_cases hx : x = c
    · rw [if_pos hx]
      have := List.length_pos.mpr (splitOnChar_ne_nil c xs)
      simpa using this
    · rw [if_neg hx]
      have hxs : c ∈ xs := by
        rcases List.mem_cons.mp h with rfl | hm
        · exact absurd rfl hx
        · exact hm
      rcases hr : splitOnChar c xs with _ | ⟨q, qs⟩
      · exact absurd hr (splitOnChar_ne_nil c xs)
      · have := ih hxs
        rw [hr] at this
        simp only [List.length_cons] at this ⊢
        omega

/-- Claim C3: for every dot-separated domain name with labels
`[a, b, c, ...]` (labels contain no comma), the derived search base equals
`DC=a,DC=b,DC=c,...` — the `base_creator` form and the inline
`'DC=' + ',DC='.join(...)` form coincide — and splitting the produced base
on its `DC=` components and rejoining the labels with `.` reproduces the
original domain string. -/
theorem base_creator_roundtrip (d : List Char) (h : ',' ∉ d) :
    base_creator d = userSearchBase d ∧ recoverDomain (base_creator d) = d := by
  constructor
  · exact joinWith_map_append ',' ['D', 'C', '='] (splitOnChar '.' d)
      (splitOnChar_ne_nil '.' d)
  · unfold recoverDomain base_creator
    have hpieces : ∀ p ∈ (splitOnChar '.' d).map (fun part => ['D', 'C', '='] ++ part),
        ',' ∉ p := by
      intro p hp
      rcases List.mem_map.mp hp with ⟨q, hq, rfl⟩
      intro hmem
      rcases List.mem_append.mp hmem with hm | hm
      · simp at hm
      · exact not_mem_of_mem_splitOnChar h q hq hm
    rw [splitOnChar_joinWith _ (by simpa using splitOnChar_ne_nil '.' d) hpieces]
    rw [List.map_map]
    have hid : ∀ p : List Char, ((fun p => p.drop 3) ∘ fun part => ['D', 'C', '='] ++ part) p = p :=
      fun p => rfl
    calc joinWith ['.'] ((splitOnChar '.' d).map
            ((fun p => p.drop 3) ∘ fun part => ['D', 'C', '='] ++ part))
        = joinWith ['.'] (splitOnChar '.' d) := by
          rw [List.map_congr_left fun p _ => hid p, List.map_id']
      _ = d := joinWith_splitOnChar '.' d

/-- Witness for C3 at the concrete domain `corp.local`. -/
theorem base_creator_roundtrip_witness :
    recoverDomain (base_creator "corp.local".data) = "corp.local".data :=
  (base_creator_roundtrip "corp.local".data (by decide)).2

/-- Claim C4: for every attribute value whose first relative distinguished
name is `CN=name` (with `name` free of `=` and `,`) followed by further
RDN components, the extracted PSO name is exactly `name`: the `CN=` tag is
stripped from the first comma-delimited segment. -/
theorem pso_name_first_rdn (name suffix : List Char)
    (h1 : '=' ∉ name) (h2 : ',' ∉ name) :
    pso_name (['C', 'N', '='] ++ name ++ ',' :: suffix) = some name := by
  unfold pso_name
  have hfront : ',' ∉ ['C', 'N', '='] ++ name := by
    intro hm
    rcases List.mem_append.mp hm with hm | hm
    · simp at hm
    · exact h2 hm
  have hfirst : splitOnChar ',' ((['C', 'N', '='] ++ name) ++ ',' :: suffix)
      = (['C', 'N', '='] ++ name) :: splitOnChar ',' suffix :=
    splitOnChar_append suffix hfront
  rw [hfirst]
  simp only [List.headI]
  have hcn : splitOnChar '=' (['C', 'N'] ++ '=' :: name)
      = ['C', 'N'] :: splitOnChar '=' name :=
    splitOnChar_append name (by decide)
  rw [show (['C', 'N', '='] ++ name : List Char) = ['C', 'N'] ++ '=' :: name from rfl,
    hcn, splitOnChar_of_not_mem h1]
  rfl

/-- Witness for C4 at the spec's concrete example value. -/
theorem pso_name_first_rdn_witness :
    pso_name "CN=StrictPolicy,CN=Password Settings Container,CN=System,DC=corp,DC=local".data
      = some "StrictPolicy".data := by
  have h := pso_name_first_rdn "StrictPolicy".data
    "CN=Password Settings Container,CN=System,DC=corp,DC=local".data
    (by decide) (by decide)
  exact h

/-- Claim C2 (the code deviates from it): the three documented sample
values decode as stated and the extreme no-expiry sentinel magnitude
`-2^63` still decodes to a well-formed string that agrees with exact
truncation; but `clock` is not the reference truncating decoder on every
signed 64-bit tick count — Python's `/` rounds `nano / 10^7` to the
nearest double before `int` truncates, and at `-8999999999999999999`
(about 28,538 years) that rounding crosses a whole-second boundary, so the
code prints one second too many while the reference truncation keeps
`...15 hours 59 minutes 59 seconds`. -/
theorem clock_float_division_diverges_from_truncation :
    clock 0 = "0 days 0 hours 0 minutes 0 seconds".data
    ∧ clock (-600000000) = "0 days 0 hours 1 minutes 0 seconds".data
    ∧ clock (-864000000000) = "1 days 0 hours 0 minutes 0 seconds".data
    ∧ clock (-9223372036854775808) = decodeIntervalRef (-9223372036854775808)
    ∧ clock (-8999999999999999999) = "10416666 days 16 hours 0 minutes 0 seconds".data
    ∧ decodeIntervalRef (-8999999999999999999)
        = "10416666 days 15 hours 59 minutes 59 seconds".data
    ∧ clock (-8999999999999999999) ≠ decodeIntervalRef (-8999999999999999999) :=
  ⟨by decide, by decide, by decide, by decide, by decide, by decide, by decide⟩

/-- Claim C9: `clock` is insensitive to the sign of its input, because
`abs` is applied to the quotient and double rounding is symmetric. -/
theorem clock_sign_insensitive (t : Int) : clock (-t) = clock t := by
  simp only [clock, pySeconds, Int.natAbs_neg]

/-- Witness for C9 at a concrete positive tick count. -/
theorem clock_sign_insensitive_witness : clock (-600000001) = clock 600000001 :=
  clock_sign_insensitive 600000001

/-- Claim C10: the PSO-name extraction is partial.  A present, non-empty
resultant-PSO value whose first comma-delimited segment contains no `=`
(here `NoEquals`) makes the `[1]` index raise `IndexError`, so the
projection produces no rows at all instead of a row; and whenever the
first comma-delimited segment does contain `=`, the extraction succeeds,
so the projection is total exactly under that precondition. -/
theorem pso_name_partiality :
    (hasPSO { sAMAccountName := some ['d'], msDS_ResultantPSO := some "NoEquals".data } = true
      ∧ pso_name "NoEquals".data = none
      ∧ projectUsers
          [{ sAMAccountName := some ['d'], msDS_ResultantPSO := some "NoEquals".data }] = none)
    ∧ ∀ v : List Char, '=' ∈ (splitOnChar ',' v).headI → (pso_name v).isSome = true := by
  refine ⟨⟨by decide, by decide, by decide⟩, ?_⟩
  intro v hv
  unfold pso_name
  have h2 := two_le_splitOnChar_length hv
  rcases hx : splitOnChar '=' (splitOnChar ',' v).headI with _ | ⟨a, _ | ⟨b, t⟩⟩ <;>
    rw [hx] at h2 <;> simp at h2 ⊢

/-- Witness for C10's totality direction at a concrete two-RDN value. -/
theorem pso_name_partiality_witness : (pso_name "CN=A,CN=B".data).isSome = true :=
  pso_name_partiality.2 "CN=A,CN=B".data (by decide)

/-- Counterexample to claim C5 as stated: this entry's resultant-PSO
attribute is present and non-empty (value `X`), yet the projection emits
no row for it — the extraction raises `IndexError` and the whole loop
aborts before any table is printed. -/
theorem projectUsers_raises_on_malformed_pso :
    hasPSO { sAMAccountName := some "carol".data, msDS_ResultantPSO := some ['X'] } = true
    ∧ projectUsers
        [{ sAMAccountName := some "carol".data, msDS_ResultantPSO := some ['X'] }] = none :=
  ⟨by decide, by decide⟩

/-- Claim C5, amended with the totality precondition the extraction
needs: on every entry sequence whose passing entries all have an
extractable PSO name, the Users projection emits exactly one row per
entry whose resultant-PSO attribute is present and non-empty, in entry
order, and an entry lacking the attribute (or holding it empty)
contributes no row at all. -/
theorem projectUsers_filter_map_of_extractable (entries : List Entry)
    (h : ∀ e ∈ entries, hasPSO e = true → (pso_name (psoValue e)).isSome = true) :
    projectUsers entries
      = some ((entries.filter hasPSO).map
          (fun e => (e.sAMAccountName.getD naStr, (pso_name (psoValue e)).getD []))) := by
  induction entries with
  | nil => rfl
  | cons e es ih =>
    have hes : ∀ e' ∈ es, hasPSO e' = true → (pso_name (psoValue e')).isSome = true :=
      fun e' he' => h e' (List.mem_cons_of_mem _ he')
    by_cases hp : hasPSO e = true
    · have hs := h e (List.mem_cons_self e es) hp
      rcases Option.isSome_iff_exists.mp hs with ⟨nm, hnm⟩
      simp [projectUsers, hp, hnm, ih hes, List.filter_cons]
    · simp [projectUsers, hp, ih hes, List.filter_cons]

/-- Witness for C5 (amended) on a concrete three-entry sequence: the
entry without the attribute and the entry with an empty value are
excluded; the one passing entry yields exactly its row, in order. -/
theorem projectUsers_filter_map_witness :
    projectUsers
        [{ sAMAccountName := some "alice".data,
           msDS_ResultantPSO := some "CN=PolA,DC=x".data },
         { sAMAccountName := some "noattr".data, msDS_ResultantPSO := none },
         { sAMAccountName := some "bob".data, msDS_ResultantPSO := some [] }]
      = some [("alice".data, "PolA".data)] := by
  have h := projectUsers_filter_map_of_extractable
    [{ sAMAccountName := some "alice".data,
       msDS_ResultantPSO := some "CN=PolA,DC=x".data },
     { sAMAccountName := some "noattr".data, msDS_ResultantPSO := none },
     { sAMAccountName := some "bob".data, msDS_ResultantPSO := some [] }]
    (by decide)
  simpa using h

/-- Claim C1: the run attempts the plaintext bind first; whenever the
plaintext attempt fails (socket-open failure or bind rejection), the
encrypted bind is attempted exactly once, at the `:636` endpoint with the
same `domain\user` principal and the same password; and if both attempts
fail the run ends with no session, performs no search, and emits nothing
beyond the two bind attempts. -/
theorem session_fallback_encrypted_once (oracle : BindAttempt → BindOutcome)
    (username password domain : List Char) (dc_ip : Option (List Char))
    (entries : List Entry)
    (h : oracle (plainAttempt username password domain dc_ip) ≠ BindOutcome.success) :
    (sslAttempt username password domain dc_ip).user
        = (plainAttempt username password domain dc_ip).user
    ∧ (sslAttempt username password domain dc_ip).password
        = (plainAttempt username password domain dc_ip).password
    ∧ (run_get_user_attributes oracle username password domain dc_ip entries).2.take 2
        = [Event.bindTry (plainAttempt username password domain dc_ip)
             (oracle (plainAttempt username password domain dc_ip)),
           Event.bindTry (sslAttempt username password domain dc_ip)
             (oracle (sslAttempt username password domain dc_ip))]
    ∧ (∀ ev ∈ (run_get_user_attributes oracle username password domain dc_ip entries).2.drop 2,
        isBindEvent ev = false)
    ∧ (oracle (sslAttempt username password domain dc_ip) ≠ BindOutcome.success →
        (run_get_user_attributes oracle username password domain dc_ip entries).1
            = RunOutcome.noSession
        ∧ (run_get_user_attributes oracle username password domain dc_ip entries).2
            = [Event.bindTry (plainAttempt username password domain dc_ip)
                 (oracle (plainAttempt username password domain dc_ip)),
               Event.bindTry (sslAttempt username password domain dc_ip)
                 (oracle (sslAttempt username password domain dc_ip))]) := by
  refine ⟨rfl, rfl, ?_⟩
  rcases h1 : oracle (plainAttempt username password domain dc_ip) with _ | _ | _
  · exact absurd h1 h
  all_goals
    rcases h2 : oracle (sslAttempt username password domain dc_ip) with _ | _ | _ <;>
      rcases hp : projectUsers entries with _ | rows <;>
        simp [run_get_user_attributes, create_connection, usersAfterBind, h1, h2, hp,
          isBindEvent]

/-- Witness for C1: a concrete oracle failing the plaintext socket and
rejecting the encrypted bind yields no session and exactly the two bind
attempts. -/
theorem session_fallback_encrypted_once_witness :
    (run_get_user_attributes
        (fun a => if a.useSSL then BindOutcome.bindFail else BindOutcome.socketFail)
        "admin".data "hunter2".data "corp.local".data (some "10.0.0.5".data) []).1
      = RunOutcome.noSession :=
  ((session_fallback_encrypted_once
      (fun a => if a.useSSL then BindOutcome.bindFail else BindOutcome.socketFail)
      "admin".data "hunter2".data "corp.local".data (some "10.0.0.5".data) []
      (by decide)).2.2.2.2 (by decide)).1

/-- Counterexample to claim C8 as stated: the bind succeeds, but the
malformed PSO value makes the projection raise after the search, and the
run ends with no `unbind` event — the session is not released on the
exception exit path (there is no `try/finally` around lines 46-79). -/
theorem run_user_raised_skips_unbind :
    (run_get_user_attributes (fun _ => BindOutcome.success) "u".data "p".data
        "corp.local".data none
        [{ sAMAccountName := some "eve".data, msDS_ResultantPSO := some "Bad8".data }]).1
      = RunOutcome.raised
    ∧ Event.unbind ∉ (run_get_user_attributes (fun _ => BindOutcome.success) "u".data "p".data
        "corp.local".data none
        [{ sAMAccountName := some "eve".data, msDS_ResultantPSO := some "Bad8".data }]).2 :=
  ⟨by decide, by decide⟩

/-- Claim C8, amended: on every exit path that does not raise an
exception after the bind — a completed user run, and a completed or
privilege-warning detail run — the last action of the run is the
`unbind`; only the exception path skips the release. -/
theorem unbind_on_completed_runs (oracle : BindAttempt → BindOutcome)
    (username password domain : List Char) (dc_ip : Option (List Char))
    (uEntries : List Entry) (dEntries : List DetailEntry) :
    (∀ rows,
      (run_get_user_attributes oracle username password domain dc_ip uEntries).1
          = RunOutcome.completed rows →
        (run_get_user_attributes oracle username password domain dc_ip uEntries).2.getLast?
          = some Event.unbind)
    ∧ ((run_get_pso_details oracle username password domain dc_ip dEntries).1
          = DetailOutcome.privilegeWarning
        ∨ (∃ blocks, (run_get_pso_details oracle username password domain dc_ip dEntries).1
            = DetailOutcome.completed blocks) →
        (run_get_pso_details oracle username password domain dc_ip dEntries).2.getLast?
          = some Event.unbind) := by
  constructor
  · intro rows hrows
    rcases h1 : oracle (plainAttempt username password domain dc_ip) with _ | _ | _ <;>
      rcases h2 : oracle (sslAttempt username password domain dc_ip) with _ | _ | _ <;>
        rcases hp : projectUsers uEntries with _ | rs <;>
          simp_all [run_get_user_attributes, create_connection, usersAfterBind,
            List.getLast?_append_cons]
  · intro hd
    rcases h1 : oracle (plainAttempt username password domain dc_ip) with _ | _ | _ <;>
      rcases h2 : oracle (sslAttempt username password domain dc_ip) with _ | _ | _ <;>
        rcases he : dEntries with _ | ⟨e0, es⟩ <;>
          rcases hr : renderAll dEntries with _ | bs <;>
            simp_all [run_get_pso_details, create_connection, detailsAfterBind,
              List.getLast?_append_cons]

/-- Witness for C8 (amended): with an all-success oracle and no entries,
the user run completes and its last event is the unbind. -/
theorem unbind_on_completed_runs_witness :
    (run_get_user_attributes (fun _ => BindOutcome.success) "u".data "p".data
        "corp.local".data none []).2.getLast? = some Event.unbind :=
  (unbind_on_completed_runs (fun _ => BindOutcome.success) "u".data "p".data
      "corp.local".data none [] []).1 [] (by decide)

/-- Counterexample to claim C6 as stated: when the group query raises an
uncaught exception, the process crashes immediately — the user and
policy-detail families are never attempted, because only the final
`get_pso_details` call is wrapped in `try/except`. -/
theorem mainRun_group_raise_skips_users :
    mainRun FamBehavior.raises FamBehavior.returns FamBehavior.returns
        = ([Fam.groups], TopOutcome.crashed)
    ∧ Fam.users ∉ (mainRun FamBehavior.raises FamBehavior.returns FamBehavior.returns).1 :=
  ⟨by decide, by decide⟩

/-- Claim C6, amended: the group family is always attempted first;
internally handled failures (which make a family return normally) never
prevent later families; but a raised exception in the group or user query
crashes the run before the remaining families are attempted — only the
final policy-detail step is exception-guarded, its raise being caught and
reported. -/
theorem mainRun_guard_shape (g u d : FamBehavior) :
    (mainRun g u d).1.head? = some Fam.groups
    ∧ (g = FamBehavior.returns → Fam.users ∈ (mainRun g u d).1)
    ∧ (g = FamBehavior.returns → u = FamBehavior.returns →
        Fam.details ∈ (mainRun g u d).1 ∧ (mainRun g u d).2 ≠ TopOutcome.crashed)
    ∧ ((mainRun g u d).2 = TopOutcome.crashed ↔
        g = FamBehavior.raises ∨ u = FamBehavior.raises)
    ∧ (g = FamBehavior.returns → u = FamBehavior.returns → d = FamBehavior.raises →
        (mainRun g u d).2 = TopOutcome.completedWithReport) := by
  cases g <;> cases u <;> cases d <;> decide

/-- Witness for C6 (amended): a raise in the guarded detail step is
caught and reported, not a crash. -/
theorem mainRun_guard_shape_witness :
    (mainRun FamBehavior.returns FamBehavior.returns FamBehavior.raises).2
      = TopOutcome.completedWithReport :=
  (mainRun_guard_shape FamBehavior.returns FamBehavior.returns FamBehavior.raises).2.2.2.2
    rfl rfl rfl

/-- Counterexample to claim C7 as stated: an entry lacking only the
minimum-password-length attribute makes the rendering raise (the source
accesses `entry['msds-minimumpasswordlength'].value` with no presence
check), aborting the block instead of rendering a placeholder. -/
theorem renderPSO_errors_on_missing_min_length :
    renderPSO
        { name := some "NoMinLen".data
          description := some "d".data
          minimumPasswordLength := none
          passwordHistoryLength := some "24".data
          lockoutThreshold := some "5".data
          lockoutObservationWindow := some (-600000000)
          lockoutDuration := some (-600000000)
          passwordComplexityEnabled := some "True".data
          minimumPasswordAge := some 0
          maximumPasswordAge := some 0
          reversibleEncryption := some "False".data
          passwordSettingsPrecedence := some "1".data
          msDS_PSOAppliesTo := some [] }
      = Except.error () := rfl

/-- Claim C7, amended: when the seven attributes that the source reads
without a presence check (name, minimum password length, password history
length, lockout threshold, complexity flag, reversible-encryption flag,
precedence) are present, the block always renders — absence of the
description or applies-to set merely omits those lines — and each absent
interval attribute (observation window, lockout duration, minimum and
maximum password age) is rendered as the explicit `N/A` placeholder;
absence of any of the seven unchecked attributes instead aborts the
block. -/
theorem renderPSO_placeholders_for_optional_attrs (e : DetailEntry)
    (h1 : e.name.isSome = true) (h2 : e.minimumPasswordLength.isSome = true)
    (h3 : e.passwordHistoryLength.isSome = true) (h4 : e.lockoutThreshold.isSome = true)
    (h5 : e.passwordComplexityEnabled.isSome = true)
    (h6 : e.reversibleEncryption.isSome = true)
    (h7 : e.passwordSettingsPrecedence.isSome = true) :
    ∃ ls, renderPSO e = Except.ok ls
      ∧ (e.lockoutObservationWindow = none →
          ("Observation Window: ".data ++ "N/A".data) ∈ ls)
      ∧ (e.lockoutDuration = none → ("Lockout Duration: ".data ++ "N/A".data) ∈ ls)
      ∧ (e.minimumPasswordAge = none → ("Minimum Password Age: ".data ++ "N/A".data) ∈ ls)
      ∧ (e.maximumPasswordAge = none → ("Maximum Password Age: ".data ++ "N/A".data) ∈ ls) := by
  rcases Option.isSome_iff_exists.mp h1 with ⟨nameV, hv1⟩
  rcases Option.isSome_iff_exists.mp h2 with ⟨minLen, hv2⟩
  rcases Option.isSome_iff_exists.mp h3 with ⟨histLen, hv3⟩
  rcases Option.isSome_iff_exists.mp h4 with ⟨thresh, hv4⟩
  rcases Option.isSome_iff_exists.mp h5 with ⟨cplx, hv5⟩
  rcases Option.isSome_iff_exists.mp h6 with ⟨rev, hv6⟩
  rcases Option.isSome_iff_exists.mp h7 with ⟨prec, hv7⟩
  refine ⟨psoLines e nameV minLen histLen thresh cplx rev prec, ?_, ?_, ?_, ?_, ?_⟩
  · simp [renderPSO, getAttr, hv1, hv2, hv3, hv4, hv5, hv6, hv7, Bind.bind, Except.bind]
  · intro hobs
    cases hd : e.description <;> simp [psoLines, clockOrNA, hobs, hd]
  · intro hdur
    cases hd : e.description <;> simp [psoLines, clockOrNA, hdur, hd]
  · intro hmin
    cases hd : e.description <;> simp [psoLines, clockOrNA, hmin, hd]
  · intro hmax
    cases hd : e.description <;> simp [psoLines, clockOrNA, hmax, hd]

/-- Witness for C7 (amended) on a concrete entry missing all four
interval attributes and the description: the block renders with the four
`N/A` placeholders. -/
theorem renderPSO_placeholders_witness :
    ∃ ls, renderPSO
        { name := some "P1".data
          description := none
          minimumPasswordLength := some "8".data
          passwordHistoryLength := some "24".data
          lockoutThreshold := some "5".data
          lockoutObservationWindow := none
          lockoutDuration := none
          passwordComplexityEnabled := some "True".data
          minimumPasswordAge := none
          maximumPasswordAge := none
          reversibleEncryption := some "False".data
          passwordSettingsPrecedence := some "1".data
          msDS_PSOAppliesTo := none }
      = Except.ok ls ∧ ("Observation Window: ".data ++ "N/A".data) ∈ ls := by
  rcases renderPSO_placeholders_for_optional_attrs
      { name := some "P1".data
        description := none
        minimumPasswordLength := some "8".data
        passwordHistoryLength := some "24".data
        lockoutThreshold := some "5".data
        lockoutObservationWindow := none
        lockoutDuration := none
        passwordComplexityEnabled := some "True".data
        minimumPasswordAge := none
        maximumPasswordAge := none
        reversibleEncryption := some "False".data
        passwordSettingsPrecedence := some "1".data
        msDS_PSOAppliesTo := none }
      rfl rfl rfl rfl rfl rfl rfl with ⟨ls, hok, hobs, _, _, _⟩
  exact ⟨ls, hok, hobs rfl⟩
